import Mathlib

/-!
Verification of the bulk operation executor of pelicanctl
(internal/bulk/executor.go).

Pure functions of the source (`NewExecutor`, `GetSummary`, `PrintBulkJSON`)
are embedded as Lean functions.  `Execute`, which runs operations in
parallel goroutines gated by a buffered-channel semaphore, is embedded as a
labelled transition system over an explicit execution state; each label
corresponds to one atomic piece of the Go code:

* `submit i`  — one iteration of the main loop body: the fail-fast check
  passes, a semaphore slot is acquired (`sem <- struct{}{}` can only
  proceed when fewer than `maxConcurrency` slots are held) and the
  goroutine for operation `i` is spawned;
* `skipFill`  — the fail-fast branch: `hasError` is observed true, all
  remaining slots are filled with the synthetic skip result and the loop
  breaks;
* `exitLoop`  — the loop runs off the end of the operations slice;
* `finish j`  — goroutine `j` runs its action, records `hasError` on
  failure, writes its result slot and releases its semaphore slot.

The Go `error` values are modelled as `Option String` (`none` = nil);
a nil-pointer dereference (calling `.Error()` on a nil error) is modelled
by the `GoOutcome.nilPanic` constructor.
-/

namespace Bulk

/-- Operation mirrors the Go struct: an ID, a display name, and an action.
The action `func() error` is modelled by its outcome: `none` for success,
`some msg` for the error it returns. -/
structure Operation where
  id : String
  name : String
  exec : Option String
deriving DecidableEq

instance : Inhabited Operation := ⟨⟨"", "", none⟩⟩

/-- Result mirrors the Go struct: the operation, a success flag, and the
error (`none` models a nil error). -/
structure Result where
  operation : Operation
  success : Bool
  error : Option String
deriving DecidableEq

/-- Executor mirrors the Go struct fields maxConcurrency, continueOnError,
failFast.  The Go `int` is modelled as `Int` (the constructor must see
non-positive values). -/
structure Executor where
  maxConcurrency : Int
  continueOnError : Bool
  failFast : Bool
deriving DecidableEq

/-- NewExecutor: coerces a non-positive maxConcurrency to the default 10. -/
def NewExecutor (maxConcurrency : Int) (continueOnError : Bool) (failFast : Bool) : Executor :=
  if maxConcurrency ≤ 0 then
    { maxConcurrency := 10, continueOnError := continueOnError, failFast := failFast }
  else
    { maxConcurrency := maxConcurrency, continueOnError := continueOnError, failFast := failFast }

/-- The synthetic error message used for operations skipped by fail-fast. -/
def skipMsg : String := "skipped due to previous error"

/-- The result the goroutine body builds for an operation it actually runs:
on error the Success flag stays false and Error is set; otherwise Success
is set. -/
def execResult (op : Operation) : Result :=
  match op.exec with
  | some e => { operation := op, success := false, error := some e }
  | none => { operation := op, success := true, error := none }

/-- The result written for an operation skipped by the fail-fast branch. -/
def skipResult (op : Operation) : Result :=
  { operation := op, success := false, error := some skipMsg }

/-- Execution state of one call to Execute: `i` is the main-loop index,
`running` the spawned-but-unfinished goroutines (these hold semaphore
slots), `finished` the goroutines that have completed, `results` the
written slots of the results slice, `hasError` the shared failure flag,
and `looping` whether the main loop is still iterating. -/
structure ExecState where
  i : Nat
  running : Finset Nat
  finished : Finset Nat
  results : Nat → Option Result
  hasError : Bool
  looping : Bool

/-- The state at the top of Execute: nothing submitted, no slot written. -/
def initState : ExecState :=
  { i := 0, running := ∅, finished := ∅, results := fun _ => none,
    hasError := false, looping := true }

/-- Labels naming the atomic transitions of Execute. -/
inductive Label where
  | submit (idx : Nat)
  | skipFill
  | exitLoop
  | finish (idx : Nat)

/-- One atomic transition of Execute, translated from the Go source.  The
interleaving of `finish` steps with the main-loop steps is unconstrained,
which models arbitrary completion order of the concurrent goroutines. -/
inductive ExecStep (e : Executor) (ops : List Operation) : Label → ExecState → ExecState → Prop where
  | submit (s : ExecState) (hl : s.looping = true) (hi : s.i < ops.length)
      (hff : (e.failFast && s.hasError) = false)
      (hsem : s.running.card < e.maxConcurrency.toNat) :
      ExecStep e ops (Label.submit s.i) s
        { s with i := s.i + 1, running := insert s.i s.running }
  | skipFill (s : ExecState) (hl : s.looping = true) (hi : s.i < ops.length)
      (hff : (e.failFast && s.hasError) = true) :
      ExecStep e ops Label.skipFill s
        { s with
          looping := false,
          results := fun j =>
            if s.i ≤ j ∧ j < ops.length then some (skipResult (ops.getD j default))
            else s.results j }
  | exitLoop (s : ExecState) (hl : s.looping = true) (hi : ops.length ≤ s.i) :
      ExecStep e ops Label.exitLoop s { s with looping := false }
  | finish (s : ExecState) (j : Nat) (hj : j ∈ s.running) :
      ExecStep e ops (Label.finish j) s
        { s with
          running := s.running.erase j,
          finished := insert j s.finished,
          results := fun k =>
            if k = j then some (execResult (ops.getD j default)) else s.results k,
          hasError := s.hasError || (ops.getD j default).exec.isSome }

/-- Some transition, with any label. -/
def StepAny (e : Executor) (ops : List Operation) (s t : ExecState) : Prop :=
  ∃ l, ExecStep e ops l s t

/-- Zero or more transitions. -/
def Reaches (e : Executor) (ops : List Operation) : ExecState → ExecState → Prop :=
  Relation.ReflTransGen (StepAny e ops)

/-- States reachable during one call to Execute. -/
def Reachable (e : Executor) (ops : List Operation) (s : ExecState) : Prop :=
  Reaches e ops initState s

/-- The state in which Execute returns: the loop has ended and `wg.Wait()`
has seen every goroutine finish. -/
def Terminal (s : ExecState) : Prop :=
  s.looping = false ∧ s.running = ∅

/-- The results slice Execute returns, read off a terminal state. -/
def finalResults (ops : List Operation) (s : ExecState) : List Result :=
  (List.range ops.length).map (fun j => (s.results j).getD (skipResult default))

/-- Summary mirrors the Go struct. -/
structure Summary where
  Total : Nat
  Success : Nat
  Failed : Nat
  Results : List Result

/-- GetSummary: folds over the results, counting successes and failures. -/
def GetSummary (results : List Result) : Summary :=
  results.foldl
    (fun summary result =>
      if result.success then { summary with Success := summary.Success + 1 }
      else { summary with Failed := summary.Failed + 1 })
    { Total := results.length, Success := 0, Failed := 0, Results := results }

/-- Outcome of a Go computation that can dereference a nil pointer:
either a value, or a runtime panic. -/
inductive GoOutcome (α : Type) where
  | ok (val : α)
  | nilPanic
deriving DecidableEq

/-- One entry of the outputData slice built by PrintBulkJSON. -/
structure ResultData where
  serverIdentifier : String
  status : String
  errMsg : Option String
deriving DecidableEq

/-- Builds one outputData entry: on failure it evaluates
`result.Error.Error()`, which panics when the error is nil. -/
def mkResultData (r : Result) : GoOutcome ResultData :=
  if r.success then
    GoOutcome.ok { serverIdentifier := r.operation.id, status := "success", errMsg := none }
  else
    match r.error with
    | some e => GoOutcome.ok { serverIdentifier := r.operation.id, status := "error", errMsg := some e }
    | none => GoOutcome.nilPanic

/-- The loop of PrintBulkJSON that builds outputData, in input order;
a panic in any iteration aborts the call. -/
def buildOutputData : List Result → GoOutcome (List ResultData)
  | [] => GoOutcome.ok []
  | r :: rest =>
    match mkResultData r with
    | GoOutcome.nilPanic => GoOutcome.nilPanic
    | GoOutcome.ok d =>
      match buildOutputData rest with
      | GoOutcome.nilPanic => GoOutcome.nilPanic
      | GoOutcome.ok ds => GoOutcome.ok (d :: ds)

/-- The response map handed to the formatter. -/
structure Response where
  results : List ResultData
  succeeded : Nat
  failed : Nat

/-- PrintBulkJSON: builds the response, prints it through the formatter
(modelled as a function returning the error of its Print call), and then
decides whether the batch is fatal.  The returned value models the Go
return value (`none` = nil error). -/
def PrintBulkJSON (print : Response → Option String) (results : List Result)
    (summary : Summary) (continueOnError : Bool) : GoOutcome (Option String) :=
  match buildOutputData results with
  | GoOutcome.nilPanic => GoOutcome.nilPanic
  | GoOutcome.ok outputData =>
    match print { results := outputData, succeeded := summary.Success, failed := summary.Failed } with
    | some err => GoOutcome.ok (some err)
    | none =>
      if 0 < summary.Failed ∧ continueOnError = false then
        GoOutcome.ok (some (toString summary.Failed ++ " operation(s) failed"))
      else
        GoOutcome.ok none

/-- Kind of access to a shared variable. -/
inductive FlagOp where
  | readOp
  | writeOp
deriving DecidableEq

/-- One syntactic access to a shared variable, with whether the shared
mutex is held at that program point. -/
structure FlagAccess where
  op : FlagOp
  underLock : Bool
deriving DecidableEq

/-- The accesses to the shared `hasError` flag in Execute, one entry per
syntactic access site in the source: the fail-fast check in the main
goroutine (`if e.failFast && hasError`) reads the flag with no lock held,
and the worker goroutine writes it between `mu.Lock()` and `mu.Unlock()`. -/
def hasErrorAccesses : List FlagAccess :=
  [ { op := FlagOp.readOp, underLock := false },
    { op := FlagOp.writeOp, underLock := true } ]

instance : Inhabited Result := ⟨{ operation := default, success := false, error := none }⟩

/-! Section: Concrete operations, executors and execution traces, used to
evaluate the definitions on closed inputs -/

/-- A sample operation whose action succeeds. -/
def wOp : Operation := { id := "a", name := "alpha", exec := none }

/-- A sample operation whose action fails with the error "boom". -/
def wOpFail : Operation := { id := "b", name := "beta", exec := some "boom" }

/-- An executor built with maxConcurrency 2 and both policy flags off. -/
def e1 : Executor := NewExecutor 2 false false

/-- A one-operation input list. -/
def ops1 : List Operation := [wOp]

/-- State after submitting operation 0. -/
def w1s1 : ExecState :=
  { initState with
    i := initState.i + 1,
    running := insert initState.i initState.running }

/-- State after goroutine 0 finishes (input `ops1`). -/
def w1s2 : ExecState :=
  { w1s1 with
    running := w1s1.running.erase 0,
    finished := insert 0 w1s1.finished,
    results := fun k => if k = 0 then some (execResult (ops1.getD 0 default)) else w1s1.results k,
    hasError := w1s1.hasError || (ops1.getD 0 default).exec.isSome }

/-- State after the loop runs off the end of `ops1`: terminal. -/
def w1s3 : ExecState := { w1s2 with looping := false }

/-- An executor built with maxConcurrency 2 and fail-fast enabled. -/
def e2 : Executor := NewExecutor 2 false true

/-- A three-operation input whose first operation fails. -/
def ops2 : List Operation := [wOpFail, wOp, wOp]

/-- State after submitting operations 0 and 1 of `ops2`. -/
def w2s2 : ExecState :=
  { w1s1 with
    i := w1s1.i + 1,
    running := insert w1s1.i w1s1.running }

/-- State after goroutine 0 (the failing one) finishes: the shared flag
is now set while goroutine 1 is still running. -/
def w2s3 : ExecState :=
  { w2s2 with
    running := w2s2.running.erase 0,
    finished := insert 0 w2s2.finished,
    results := fun k => if k = 0 then some (execResult (ops2.getD 0 default)) else w2s2.results k,
    hasError := w2s2.hasError || (ops2.getD 0 default).exec.isSome }

/-- State after the fail-fast branch fills slot 2 with the skip marker
and breaks the loop. -/
def w2s4 : ExecState :=
  { w2s3 with
    looping := false,
    results := fun j =>
      if w2s3.i ≤ j ∧ j < ops2.length then some (skipResult (ops2.getD j default))
      else w2s3.results j }

/-- State after goroutine 1 finishes: terminal. -/
def w2s5 : ExecState :=
  { w2s4 with
    running := w2s4.running.erase 1,
    finished := insert 1 w2s4.finished,
    results := fun k => if k = 1 then some (execResult (ops2.getD 1 default)) else w2s4.results k,
    hasError := w2s4.hasError || (ops2.getD 1 default).exec.isSome }

/-- The state a submit step from `w2s3` would produce, were it enabled. -/
def w2sub : ExecState :=
  { w2s3 with
    i := w2s3.i + 1,
    running := insert w2s3.i w2s3.running }

/-! Section: Invariants of the execution state -/

/-- The inductive invariant of Execute: the loop index stays in range, the
running and finished sets contain only already-submitted indices and are
disjoint, the semaphore bound holds, every slot below the loop index is
either pending (its goroutine still running) or holds that goroutine result, the
result, slots at or above the loop index are unwritten while the loop
runs and hold the skip marker once the loop has ended, and the shared
flag is set exactly when some finished operation failed. -/
structure ExecInv (e : Executor) (ops : List Operation) (s : ExecState) : Prop where
  i_le : s.i ≤ ops.length
  running_lt : ∀ j ∈ s.running, j < s.i
  finished_lt : ∀ j ∈ s.finished, j < s.i
  disj : ∀ j ∈ s.running, j ∉ s.finished
  card_le : s.running.card ≤ e.maxConcurrency.toNat
  results_lo : ∀ j, j < s.i →
    (j ∈ s.running ∧ s.results j = none) ∨
    (j ∈ s.finished ∧ s.results j = some (execResult (ops.getD j default)))
  results_hi_loop : s.looping = true → ∀ j, s.i ≤ j → s.results j = none
  results_hi_done : s.looping = false → ∀ j, s.i ≤ j → j < ops.length →
    s.results j = some (skipResult (ops.getD j default))
  hasError_iff : s.hasError = true ↔ ∃ j ∈ s.finished, (ops.getD j default).exec.isSome = true

theorem execInv_init (e : Executor) (ops : List Operation) : ExecInv e ops initState := by
  constructor
  · exact Nat.zero_le _
  · intro j hj; exact absurd hj (Finset.not_mem_empty j)
  · intro j hj; exact absurd hj (Finset.not_mem_empty j)
  · intro j hj; exact absurd hj (Finset.not_mem_empty j)
  · simp [initState]
  · intro j hj; exact absurd hj (Nat.not_lt_zero j)
  · intro _ j _; rfl
  · intro h; simp [initState] at h
  · constructor
    · intro h; simp [initState] at h
    · rintro ⟨j, hj, _⟩; exact absurd hj (Finset.not_mem_empty j)

theorem execInv_step {e : Executor} {ops : List Operation} {l : Label} {s t : ExecState}
    (hst : ExecStep e ops l s t) (inv : ExecInv e ops s) : ExecInv e ops t := by
  cases hst with
  | submit s hl hi hff hsem =>
    constructor
    · exact hi
    · intro j hj
      rcases Finset.mem_insert.mp hj with h | h
      · subst h; exact Nat.lt_succ_self _
      · exact Nat.lt_succ_of_lt (inv.running_lt j h)
    · intro j hj; exact Nat.lt_succ_of_lt (inv.finished_lt j hj)
    · intro j hj
      rcases Finset.mem_insert.mp hj with h | h
      · subst h; intro hc; exact absurd (inv.finished_lt _ hc) (Nat.lt_irrefl _)
      · exact inv.disj j h
    · calc (insert s.i s.running).card ≤ s.running.card + 1 := Finset.card_insert_le _ _
        _ ≤ e.maxConcurrency.toNat := hsem
    · intro j hj
      rcases Nat.lt_succ_iff_lt_or_eq.mp hj with h | h
      · rcases inv.results_lo j h with ⟨h1, h2⟩ | ⟨h1, h2⟩
        · exact Or.inl ⟨Finset.mem_insert_of_mem h1, h2⟩
        · exact Or.inr ⟨h1, h2⟩
      · subst h
        exact Or.inl ⟨Finset.mem_insert_self _ _, inv.results_hi_loop hl s.i (Nat.le_refl _)⟩
    · intro _ j hj
      exact inv.results_hi_loop hl j (Nat.le_of_succ_le hj)
    · intro h; exact absurd h (by simp [hl])
    · exact inv.hasError_iff
  | skipFill s hl hi hff =>
    constructor
    · exact inv.i_le
    · exact inv.running_lt
    · exact inv.finished_lt
    · exact inv.disj
    · exact inv.card_le
    · intro j hj
      have hj2 : j < s.i := hj
      have hcond : ¬ (s.i ≤ j ∧ j < ops.length) := by omega
      rcases inv.results_lo j hj2 with ⟨h1, h2⟩ | ⟨h1, h2⟩
      · exact Or.inl ⟨h1, (if_neg hcond).trans h2⟩
      · exact Or.inr ⟨h1, (if_neg hcond).trans h2⟩
    · intro h; exact absurd h (by simp)
    · intro _ j hj hjlen
      have hj2 : s.i ≤ j := hj
      exact if_pos ⟨hj2, hjlen⟩
    · exact inv.hasError_iff
  | exitLoop s hl hi =>
    constructor
    · exact inv.i_le
    · exact inv.running_lt
    · exact inv.finished_lt
    · exact inv.disj
    · exact inv.card_le
    · exact inv.results_lo
    · intro h; exact absurd h (by simp)
    · intro _ j hj hjlen
      have hj2 : s.i ≤ j := hj
      omega
    · exact inv.hasError_iff
  | finish s j hj =>
    constructor
    · exact inv.i_le
    · intro k hk; exact inv.running_lt k (Finset.mem_of_mem_erase hk)
    · intro k hk
      rcases Finset.mem_insert.mp hk with h | h
      · subst h; exact inv.running_lt k hj
      · exact inv.finished_lt k h
    · intro k hk hkf
      have hk1 := Finset.mem_erase.mp hk
      rcases Finset.mem_insert.mp hkf with h | h
      · exact hk1.1 h
      · exact inv.disj k hk1.2 h
    · exact Nat.le_trans (Finset.card_erase_le) inv.card_le
    · intro k hk
      have hk2 : k < s.i := hk
      by_cases hkj : k = j
      · subst hkj
        exact Or.inr ⟨Finset.mem_insert_self _ _, if_pos rfl⟩
      · rcases inv.results_lo k hk2 with ⟨h1, h2⟩ | ⟨h1, h2⟩
        · exact Or.inl ⟨Finset.mem_erase.mpr ⟨hkj, h1⟩, (if_neg hkj).trans h2⟩
        · exact Or.inr ⟨Finset.mem_insert_of_mem h1, (if_neg hkj).trans h2⟩
    · intro hlp k hk
      have hk2 : s.i ≤ k := hk
      have hkj : k ≠ j := by
        have h1 : j < s.i := inv.running_lt j hj
        omega
      exact (if_neg hkj).trans (inv.results_hi_loop hlp k hk2)
    · intro hlp k hk hklen
      have hk2 : s.i ≤ k := hk
      have hkj : k ≠ j := by
        have h1 : j < s.i := inv.running_lt j hj
        omega
      exact (if_neg hkj).trans (inv.results_hi_done hlp k hk2 hklen)
    · simp only [Bool.or_eq_true]
      constructor
      · intro h
        rcases h with h | h
        · rcases inv.hasError_iff.mp h with ⟨k, hk, hke⟩
          exact ⟨k, Finset.mem_insert_of_mem hk, hke⟩
        · exact ⟨j, Finset.mem_insert_self _ _, h⟩
      · rintro ⟨k, hk, hke⟩
        rcases Finset.mem_insert.mp hk with h | h
        · subst h; exact Or.inr hke
        · exact Or.inl (inv.hasError_iff.mpr ⟨k, h, hke⟩)

theorem execInv_reaches {e : Executor} {ops : List Operation} {s t : ExecState}
    (h : Reaches e ops s t) (inv : ExecInv e ops s) : ExecInv e ops t := by
  induction h with
  | refl => exact inv
  | tail _ hstep ih => exact execInv_step hstep.choose_spec ih

theorem execInv_reachable {e : Executor} {ops : List Operation} {s : ExecState}
    (h : Reachable e ops s) : ExecInv e ops s :=
  execInv_reaches h (execInv_init e ops)

/-! Section: Monotonicity along executions -/

theorem stepAny_i_mono {e : Executor} {ops : List Operation} {s t : ExecState}
    (h : StepAny e ops s t) : s.i ≤ t.i := by
  obtain ⟨l, hl⟩ := h
  cases hl with
  | submit s hl hi hff hsem => exact Nat.le_succ _
  | skipFill s hl hi hff => exact Nat.le_refl _
  | exitLoop s hl hi => exact Nat.le_refl _
  | finish s j hj => exact Nat.le_refl _

theorem reaches_i_mono {e : Executor} {ops : List Operation} {s t : ExecState}
    (h : Reaches e ops s t) : s.i ≤ t.i := by
  induction h with
  | refl => exact Nat.le_refl _
  | tail _ hstep ih => exact Nat.le_trans ih (stepAny_i_mono hstep)

theorem stepAny_hasError_mono {e : Executor} {ops : List Operation} {s t : ExecState}
    (h : StepAny e ops s t) (he : s.hasError = true) : t.hasError = true := by
  obtain ⟨l, hl⟩ := h
  cases hl with
  | submit s hl hi hff hsem => exact he
  | skipFill s hl hi hff => exact he
  | exitLoop s hl hi => exact he
  | finish s j hj => simp [he]

theorem reaches_hasError_mono {e : Executor} {ops : List Operation} {s t : ExecState}
    (h : Reaches e ops s t) (he : s.hasError = true) : t.hasError = true := by
  induction h with
  | refl => exact he
  | tail _ hstep ih => exact stepAny_hasError_mono hstep ih

theorem stepAny_finished_mono {e : Executor} {ops : List Operation} {s t : ExecState}
    (h : StepAny e ops s t) : s.finished ⊆ t.finished := by
  obtain ⟨l, hl⟩ := h
  cases hl with
  | submit s hl hi hff hsem => exact Finset.Subset.refl _
  | skipFill s hl hi hff => exact Finset.Subset.refl _
  | exitLoop s hl hi => exact Finset.Subset.refl _
  | finish s j hj => exact Finset.subset_insert _ _

theorem reaches_finished_mono {e : Executor} {ops : List Operation} {s t : ExecState}
    (h : Reaches e ops s t) : s.finished ⊆ t.finished := by
  induction h with
  | refl => exact Finset.Subset.refl _
  | tail _ hstep ih => exact Finset.Subset.trans ih (stepAny_finished_mono hstep)

/-- Once spawned, a goroutine stays in the running set until it finishes,
after which it is in the finished set for good. -/
theorem reaches_run_or_finish {e : Executor} {ops : List Operation} {s t : ExecState}
    (h : Reaches e ops s t) (j : Nat) (hj : j ∈ s.running) :
    j ∈ t.running ∨ j ∈ t.finished := by
  induction h with
  | refl => exact Or.inl hj
  | tail _ hstep ih =>
    rename_i u v _
    rcases ih with hr | hf
    · obtain ⟨l, hl⟩ := hstep
      cases hl with
      | submit u hl hi hff hsem => exact Or.inl (Finset.mem_insert_of_mem hr)
      | skipFill u hl hi hff => exact Or.inl hr
      | exitLoop u hl hi => exact Or.inl hr
      | finish u k hk =>
        by_cases hjk : j = k
        · subst hjk; exact Or.inr (Finset.mem_insert_self _ _)
        · exact Or.inl (Finset.mem_erase.mpr ⟨hjk, hr⟩)
    · exact Or.inr (stepAny_finished_mono hstep hf)

/-! Section: Fail-fast machinery -/

/-- Once the shared failure flag is set, a fail-fast executor can never
again take a submit step: the check before each submission blocks it. -/
theorem no_submit_of_hasError {e : Executor} {ops : List Operation} {s t : ExecState}
    (hff : e.failFast = true) (he : s.hasError = true) (j : Nat)
    (h : ExecStep e ops (Label.submit j) s t) : False := by
  cases h with
  | submit s hl hi hguard hsem => simp [hff, he] at hguard

/-- With fail-fast enabled and the failure flag set, the loop index never
moves again: no further operation is ever submitted. -/
theorem reaches_i_frozen {e : Executor} {ops : List Operation} {s t : ExecState}
    (hff : e.failFast = true) (he : s.hasError = true)
    (h : Reaches e ops s t) : t.i = s.i := by
  induction h with
  | refl => rfl
  | tail hpre hstep ih =>
    rename_i v c
    have hv : v.hasError = true := reaches_hasError_mono hpre he
    obtain ⟨l, hl⟩ := hstep
    cases hl with
    | submit v hl hi hguard hsem => simp [hff, hv] at hguard
    | skipFill v hl hi hguard => exact ih
    | exitLoop v hl hi => exact ih
    | finish v k hk => exact ih

/-! Section: Shape of individual results -/

theorem execResult_operation (op : Operation) : (execResult op).operation = op := by
  cases h : op.exec <;> simp [execResult, h]

theorem skipResult_operation (op : Operation) : (skipResult op).operation = op := rfl

theorem execResult_error (op : Operation) : (execResult op).error = op.exec := by
  cases h : op.exec <;> simp [execResult, h]

theorem execResult_success_iff (op : Operation) :
    (execResult op).success = true ↔ (execResult op).error = none := by
  cases h : op.exec <;> simp [execResult, h]

/-- In a terminal reachable state every slot below the input length holds a
result whose operation is the input operation at that index, whose success
flag is set exactly when its error is nil, and whose error is nil, the
error of its own action, or the synthetic skip marker. -/
theorem terminal_results_slot {e : Executor} {ops : List Operation} {s : ExecState}
    (hr : Reachable e ops s) (ht : Terminal s) :
    ∀ j, j < ops.length → ∃ r, s.results j = some r ∧
      r.operation = ops.getD j default ∧
      (r.success = true ↔ r.error = none) ∧
      (r.error = none ∨ r.error = (ops.getD j default).exec ∨ r.error = some skipMsg) := by
  intro j hj
  have inv := execInv_reachable hr
  by_cases hji : j < s.i
  · rcases inv.results_lo j hji with ⟨h1, _⟩ | ⟨_, h2⟩
    · rw [ht.2] at h1
      exact absurd h1 (Finset.not_mem_empty j)
    · refine ⟨execResult (ops.getD j default), h2, execResult_operation _,
        execResult_success_iff _, Or.inr (Or.inl (execResult_error _))⟩
  · have hge : s.i ≤ j := Nat.le_of_not_lt hji
    refine ⟨skipResult (ops.getD j default), inv.results_hi_done ht.1 j hge hj,
      skipResult_operation _, ?_, Or.inr (Or.inr rfl)⟩
    simp [skipResult]

/-! Section: Concrete reachability facts for the sample traces -/

theorem w1_reach : Reachable e1 ops1 w1s3 := by
  have h1 : StepAny e1 ops1 initState w1s1 :=
    ⟨_, ExecStep.submit initState rfl (by decide) (by decide) (by decide)⟩
  have h2 : StepAny e1 ops1 w1s1 w1s2 :=
    ⟨_, ExecStep.finish w1s1 0 (by decide)⟩
  have h3 : StepAny e1 ops1 w1s2 w1s3 :=
    ⟨_, ExecStep.exitLoop w1s2 rfl (by decide)⟩
  exact Relation.ReflTransGen.head h1 (Relation.ReflTransGen.head h2 (Relation.ReflTransGen.single h3))

theorem w1_terminal : Terminal w1s3 := ⟨rfl, by decide⟩

theorem w2_reach : Reachable e2 ops2 w2s3 := by
  have h1 : StepAny e2 ops2 initState w1s1 :=
    ⟨_, ExecStep.submit initState rfl (by decide) (by decide) (by decide)⟩
  have h2 : StepAny e2 ops2 w1s1 w2s2 :=
    ⟨_, ExecStep.submit w1s1 rfl (by decide) (by decide) (by decide)⟩
  have h3 : StepAny e2 ops2 w2s2 w2s3 :=
    ⟨_, ExecStep.finish w2s2 0 (by decide)⟩
  exact Relation.ReflTransGen.head h1 (Relation.ReflTransGen.head h2 (Relation.ReflTransGen.single h3))

theorem w2_tail : Reaches e2 ops2 w2s3 w2s5 := by
  have h4 : StepAny e2 ops2 w2s3 w2s4 :=
    ⟨_, ExecStep.skipFill w2s3 rfl (by decide) (by decide)⟩
  have h5 : StepAny e2 ops2 w2s4 w2s5 :=
    ⟨_, ExecStep.finish w2s4 1 (by decide)⟩
  exact Relation.ReflTransGen.head h4 (Relation.ReflTransGen.single h5)

theorem w2_terminal : Terminal w2s5 := ⟨rfl, by decide⟩

/-! Section: Claims about Execute -/

/-- C1: for every input list of operations and every interleaving of the
concurrent goroutines, a terminal state of Execute carries exactly one
result per input operation, the result at index j belonging to operation
j; empty input yields the empty result list with no action ever invoked. -/
theorem execute_completeness {e : Executor} {ops : List Operation} {s : ExecState}
    (hr : Reachable e ops s) (ht : Terminal s) :
    (finalResults ops s).length = ops.length ∧
    (∀ j, j < ops.length → ∃ r, s.results j = some r ∧ r.operation = ops.getD j default) ∧
    (∀ j, j < ops.length → ((finalResults ops s).getD j default).operation = ops.getD j default) ∧
    (ops = [] → finalResults ops s = [] ∧ s.finished = ∅) := by
  have hslot := terminal_results_slot hr ht
  refine ⟨by simp [finalResults], ?_, ?_, ?_⟩
  · intro j hj
    obtain ⟨r, h1, h2, _, _⟩ := hslot j hj
    exact ⟨r, h1, h2⟩
  · intro j hj
    obtain ⟨r, h1, h2, _, _⟩ := hslot j hj
    have hlen : j < (finalResults ops s).length := by simp [finalResults, hj]
    rw [List.getD_eq_getElem _ _ hlen]
    simp only [finalResults, List.getElem_map, List.getElem_range]
    rw [h1]
    exact h2
  · intro hempty
    subst hempty
    have inv := execInv_reachable hr
    refine ⟨by simp [finalResults], ?_⟩
    rw [Finset.eq_empty_iff_forall_not_mem]
    intro j hjf
    have h1 := inv.finished_lt j hjf
    have h2 := inv.i_le
    simp at h2
    omega

/-- Closed instance of C1 on the one-operation trace. -/
theorem execute_completeness_witness :
    (finalResults ops1 w1s3).length = ops1.length ∧
    (∀ j, j < ops1.length → ∃ r, w1s3.results j = some r ∧ r.operation = ops1.getD j default) ∧
    (∀ j, j < ops1.length → ((finalResults ops1 w1s3).getD j default).operation = ops1.getD j default) ∧
    (ops1 = [] → finalResults ops1 w1s3 = [] ∧ w1s3.finished = ∅) :=
  execute_completeness w1_reach w1_terminal

/-- After the failure flag is set under fail-fast, no operation at or past
the frozen loop index is ever spawned or finished. -/
theorem frozen_not_touched {e : Executor} {ops : List Operation} {s u : ExecState}
    (hff : e.failFast = true) (he : s.hasError = true)
    (inv : ExecInv e ops s) (h : Reaches e ops s u) :
    ∀ j, s.i ≤ j → j ∉ u.running ∧ j ∉ u.finished := by
  induction h with
  | refl =>
    intro j hj
    exact ⟨fun hm => absurd (inv.running_lt j hm) (by omega),
      fun hm => absurd (inv.finished_lt j hm) (by omega)⟩
  | tail hpre hstep ih =>
    rename_i v c
    intro j hj
    obtain ⟨hjr, hjf⟩ := ih j hj
    have hv : v.hasError = true := reaches_hasError_mono hpre he
    obtain ⟨l, hl⟩ := hstep
    cases hl with
    | submit v hl2 hi hguard hsem => simp [hff, hv] at hguard
    | skipFill v hl2 hi hguard => exact ⟨hjr, hjf⟩
    | exitLoop v hl2 hi => exact ⟨hjr, hjf⟩
    | finish v k hk =>
      refine ⟨fun hm => hjr (Finset.mem_of_mem_erase hm), fun hm => ?_⟩
      rcases Finset.mem_insert.mp hm with hkj | hmf
      · subst hkj; exact hjr hk
      · exact hjf hmf

/-- C2: with fail-fast enabled, once some completed operation has failed
(the shared flag is set) and the loop stands at index i, no operation is
ever submitted again — from this state and every later one a submit step
is impossible, operations i onwards are never spawned or finished, every
terminal state gives each of them the synthetic skip result, and the
operations already submitted still run to completion, their slots holding
the outcome of their own action. -/
theorem execute_failFast_skips {e : Executor} {ops : List Operation} {s : ExecState}
    (hff : e.failFast = true) (hr : Reachable e ops s)
    (hfail : ∃ j ∈ s.finished, (ops.getD j default).exec.isSome = true) :
    (∀ u, Reaches e ops s u → ∀ j t, ¬ ExecStep e ops (Label.submit j) u t) ∧
    (∀ u, Reaches e ops s u → ∀ j, s.i ≤ j → j ∉ u.running ∧ j ∉ u.finished) ∧
    (∀ t, Reaches e ops s t → Terminal t →
      (∀ j, s.i ≤ j → j < ops.length → t.results j = some (skipResult (ops.getD j default))) ∧
      (∀ j, j ∈ s.running → j ∈ t.finished ∧ t.results j = some (execResult (ops.getD j default)))) := by
  have inv := execInv_reachable hr
  have he : s.hasError = true := inv.hasError_iff.mpr hfail
  refine ⟨?_, ?_, ?_⟩
  · intro u hu j t hstep
    exact no_submit_of_hasError hff (reaches_hasError_mono hu he) j hstep
  · intro u hu
    exact frozen_not_touched hff he inv hu
  · intro t htr htt
    have invt : ExecInv e ops t := execInv_reaches htr inv
    have hti : t.i = s.i := reaches_i_frozen hff he htr
    constructor
    · intro j hj hjlen
      exact invt.results_hi_done htt.1 j (by omega) hjlen
    · intro j hjr
      have hjfin : j ∈ t.finished := by
        rcases reaches_run_or_finish htr j hjr with h1 | h1
        · rw [htt.2] at h1; exact absurd h1 (Finset.not_mem_empty j)
        · exact h1
      have hji : j < t.i := by
        have := inv.running_lt j hjr
        omega
      rcases invt.results_lo j hji with ⟨h1, _⟩ | ⟨_, h2⟩
      · rw [htt.2] at h1; exact absurd h1 (Finset.not_mem_empty j)
      · exact ⟨hjfin, h2⟩

/-- Closed instance of C2 on the fail-fast trace: from the state where the
failing operation has completed, operation 2 can no longer be submitted,
it is never spawned, the terminal state marks it with the skip result, and
the in-flight operation 1 still runs to completion. -/
theorem execute_failFast_skips_witness :
    (¬ ExecStep e2 ops2 (Label.submit 2) w2s3 w2sub) ∧
    (2 ∉ w2s5.running ∧ 2 ∉ w2s5.finished) ∧
    w2s5.results 2 = some (skipResult (ops2.getD 2 default)) ∧
    (1 ∈ w2s5.finished ∧ w2s5.results 1 = some (execResult (ops2.getD 1 default))) :=
  ⟨(execute_failFast_skips rfl w2_reach ⟨0, by decide, by decide⟩).1 w2s3
      Relation.ReflTransGen.refl 2 w2sub,
   (execute_failFast_skips rfl w2_reach ⟨0, by decide, by decide⟩).2.1 w2s5 w2_tail 2 (by decide),
   ((execute_failFast_skips rfl w2_reach ⟨0, by decide, by decide⟩).2.2 w2s5 w2_tail
      w2_terminal).1 2 (by decide) (by decide),
   ((execute_failFast_skips rfl w2_reach ⟨0, by decide, by decide⟩).2.2 w2s5 w2_tail
      w2_terminal).2 1 (by decide)⟩

/-- C3: the number of simultaneously running actions never exceeds the
coerced maxConcurrency of the executor: a semaphore slot must be free before
an operation is spawned, and the slot is given up by the finish step
whether the action succeeded or failed. -/
theorem execute_concurrency_bound {m : Int} {c f : Bool} {ops : List Operation} {s : ExecState}
    (hr : Reachable (NewExecutor m c f) ops s) :
    s.running.card ≤ (NewExecutor m c f).maxConcurrency.toNat ∧
    (∀ t j, ExecStep (NewExecutor m c f) ops (Label.submit j) s t →
      s.running.card < (NewExecutor m c f).maxConcurrency.toNat ∧ j ∈ t.running) ∧
    (∀ t j, ExecStep (NewExecutor m c f) ops (Label.finish j) s t → j ∉ t.running) := by
  refine ⟨(execInv_reachable hr).card_le, ?_, ?_⟩
  · intro t j hstep
    cases hstep with
    | submit s hl hi hff hsem => exact ⟨hsem, Finset.mem_insert_self _ _⟩
  · intro t j hstep
    cases hstep with
    | finish s j hj => exact Finset.not_mem_erase j _

/-- Closed instance of C3 on the one-operation trace, in the state where
the single goroutine is running. -/
theorem execute_concurrency_bound_witness :
    w1s1.running.card ≤ (NewExecutor 2 false false).maxConcurrency.toNat :=
  (@execute_concurrency_bound 2 false false ops1 w1s1 (Relation.ReflTransGen.single
    ⟨_, ExecStep.submit initState rfl (by decide) (by decide) (by decide)⟩)).1

/-- The fold inside GetSummary adds the success count to the Success field
and the failure count to the Failed field, leaving Total and Results. -/
theorem getSummary_fold (results : List Result) (acc : Summary) :
    (results.foldl
      (fun summary result =>
        if result.success then { summary with Success := summary.Success + 1 }
        else { summary with Failed := summary.Failed + 1 }) acc) =
    { acc with
      Success := acc.Success + results.countP (fun r => r.success),
      Failed := acc.Failed + results.countP (fun r => !r.success) } := by
  induction results generalizing acc with
  | nil => cases acc; simp
  | cons r rest ih =>
    simp only [List.foldl_cons]
    by_cases hr : r.success = true
    · rw [if_pos hr, ih]
      cases acc
      simp [List.countP_cons, hr, Summary.mk.injEq]
      omega
    · rw [if_neg hr, ih]
      cases acc
      simp [List.countP_cons, hr, Summary.mk.injEq]
      omega

/-- C4: GetSummary counts: Total is the input length, Success the number
of successful results, Failed the rest, Success + Failed = Total, and a
permutation of the result list yields the same three counts. -/
theorem getSummary_correct (results other : List Result) (hperm : results.Perm other) :
    (GetSummary results).Total = results.length ∧
    (GetSummary results).Success = results.countP (fun r => r.success) ∧
    (GetSummary results).Failed = results.countP (fun r => !r.success) ∧
    (GetSummary results).Success + (GetSummary results).Failed = (GetSummary results).Total ∧
    (GetSummary results).Total = (GetSummary other).Total ∧
    (GetSummary results).Success = (GetSummary other).Success ∧
    (GetSummary results).Failed = (GetSummary other).Failed := by
  have hres : ∀ l : List Result, GetSummary l =
      { Total := l.length,
        Success := l.countP (fun r => r.success),
        Failed := l.countP (fun r => !r.success),
        Results := l } := by
    intro l
    unfold GetSummary
    rw [getSummary_fold]
    simp
  rw [hres results, hres other]
  have hlen := hperm.length_eq
  have hsucc := hperm.countP_eq (fun r => r.success)
  have hfail := hperm.countP_eq (fun r => !r.success)
  have htotal : results.countP (fun r => r.success) + results.countP (fun r => !r.success) =
      results.length := by
    have hfun : (fun (a : Result) => decide (¬a.success = true)) = (fun r : Result => !r.success) := by
      funext a; cases a.success <;> simp
    rw [List.length_eq_countP_add_countP (fun r => r.success) results, hfun]
  simp_all

/-- Closed instance of C4 on a two-result list and its reversal. -/
theorem getSummary_correct_witness :
    (GetSummary [{ operation := wOp, success := true, error := none },
      { operation := wOpFail, success := false, error := some "boom" }]).Total = 2 ∧
    (GetSummary [{ operation := wOp, success := true, error := none },
      { operation := wOpFail, success := false, error := some "boom" }]).Success =
      (GetSummary [{ operation := wOpFail, success := false, error := some "boom" },
        { operation := wOp, success := true, error := none }]).Success := by
  have h := getSummary_correct
    [{ operation := wOp, success := true, error := none },
      { operation := wOpFail, success := false, error := some "boom" }]
    [{ operation := wOpFail, success := false, error := some "boom" },
      { operation := wOp, success := true, error := none }]
    (List.Perm.swap _ _ _)
  exact ⟨h.1, h.2.2.2.2.2.1⟩

/-- Reading the returned results slice at an index whose slot was written
gives exactly the written result. -/
theorem finalResults_getD {ops : List Operation} {s : ExecState} (j : Nat)
    (hj : j < ops.length) (r : Result) (hr : s.results j = some r) :
    (finalResults ops s).getD j default = r := by
  have hlen : j < (finalResults ops s).length := by simp [finalResults, hj]
  rw [List.getD_eq_getElem _ _ hlen]
  simp only [finalResults, List.getElem_map, List.getElem_range]
  rw [hr]
  rfl

/-- C5: in every terminal state of Execute, the result at each index has a
non-nil error exactly when its Success flag is false, and that error is
either the error returned by the action of the operation itself or the synthetic
skip marker — an action error surfaces nowhere but inside its Result. -/
theorem execute_result_error_iff {e : Executor} {ops : List Operation} {s : ExecState}
    (hr : Reachable e ops s) (ht : Terminal s) :
    ∀ j, j < ops.length →
      (((finalResults ops s).getD j default).error ≠ none ↔
        ((finalResults ops s).getD j default).success = false) ∧
      (((finalResults ops s).getD j default).error = none ∨
        ((finalResults ops s).getD j default).error = (ops.getD j default).exec ∨
        ((finalResults ops s).getD j default).error = some skipMsg) := by
  intro j hj
  obtain ⟨r, h1, _, h3, h4⟩ := terminal_results_slot hr ht j hj
  rw [finalResults_getD j hj r h1]
  refine ⟨?_, h4⟩
  constructor
  · intro hne
    cases hsuc : r.success
    · rfl
    · exact absurd (h3.mp hsuc) hne
  · intro hs hn
    rw [h3.mpr hn] at hs
    exact Bool.noConfusion hs

/-- Closed instance of C5 at index 0 of the one-operation trace. -/
theorem execute_result_error_iff_witness :
    (((finalResults ops1 w1s3).getD 0 default).error ≠ none ↔
      ((finalResults ops1 w1s3).getD 0 default).success = false) ∧
    (((finalResults ops1 w1s3).getD 0 default).error = none ∨
      ((finalResults ops1 w1s3).getD 0 default).error = (ops1.getD 0 default).exec ∨
      ((finalResults ops1 w1s3).getD 0 default).error = some skipMsg) :=
  execute_result_error_iff w1_reach w1_terminal 0 (by decide)

/-- Transitions do not depend on the continueOnError field: any step of an
executor is a step of any executor agreeing on maxConcurrency and
failFast. -/
theorem execStep_config_indep {ex1 ex2 : Executor}
    (hm : ex1.maxConcurrency = ex2.maxConcurrency) (hf : ex1.failFast = ex2.failFast)
    {ops : List Operation} {l : Label} {s t : ExecState}
    (h : ExecStep ex1 ops l s t) : ExecStep ex2 ops l s t := by
  cases h with
  | submit s hl hi hff hsem =>
    exact ExecStep.submit s hl hi (by rw [← hf]; exact hff) (by rw [← hm]; exact hsem)
  | skipFill s hl hi hff =>
    exact ExecStep.skipFill s hl hi (by rw [← hf]; exact hff)
  | exitLoop s hl hi => exact ExecStep.exitLoop s hl hi
  | finish s j hj => exact ExecStep.finish s j hj

/-- C6: two executors that differ only in continueOnError generate exactly
the same transitions, hence the same reachable states and the same
terminal result lists — the flag is never consulted during scheduling or
execution. -/
theorem continueOnError_noninterference (ex1 ex2 : Executor)
    (hm : ex1.maxConcurrency = ex2.maxConcurrency) (hf : ex1.failFast = ex2.failFast)
    (ops : List Operation) :
    (∀ l s t, ExecStep ex1 ops l s t ↔ ExecStep ex2 ops l s t) ∧
    (∀ s, Reachable ex1 ops s ↔ Reachable ex2 ops s) ∧
    (∀ s, Reachable ex1 ops s ∧ Terminal s ↔ Reachable ex2 ops s ∧ Terminal s) := by
  have hstep : ∀ l s t, ExecStep ex1 ops l s t ↔ ExecStep ex2 ops l s t :=
    fun l s t => ⟨execStep_config_indep hm hf, execStep_config_indep hm.symm hf.symm⟩
  have hreach : ∀ s, Reachable ex1 ops s ↔ Reachable ex2 ops s := by
    intro s
    constructor
    · exact Relation.ReflTransGen.mono
        (fun a b hab => hab.imp (fun l hl => (hstep l a b).mp hl))
    · exact Relation.ReflTransGen.mono
        (fun a b hab => hab.imp (fun l hl => (hstep l a b).mpr hl))
  exact ⟨hstep, hreach, fun s => and_congr_left (fun _ => hreach s)⟩

/-- Closed instance of C6: the first submit step is a transition of the
executor with continueOnError on exactly when it is one of the executor
with it off. -/
theorem continueOnError_noninterference_witness :
    ExecStep (NewExecutor 2 true false) ops1 (Label.submit 0) initState w1s1 ↔
      ExecStep (NewExecutor 2 false false) ops1 (Label.submit 0) initState w1s1 :=
  (continueOnError_noninterference (NewExecutor 2 true false) (NewExecutor 2 false false)
    (by decide) (by decide) ops1).1 (Label.submit 0) initState w1s1

/-- C7: provided the Print call of the formatter succeeds (and the output loop
does not panic), PrintBulkJSON returns the batch-failure error exactly
when the Failed count of the summary is positive and continueOnError is false,
and returns nil otherwise. -/
theorem printBulkJSON_fatal_iff (print : Response → Option String) (results : List Result)
    (summary : Summary) (c : Bool) (outputData : List ResultData)
    (hbuild : buildOutputData results = GoOutcome.ok outputData)
    (hprint : print { results := outputData, succeeded := summary.Success, failed := summary.Failed } = none) :
    (0 < summary.Failed ∧ c = false →
      PrintBulkJSON print results summary c =
        GoOutcome.ok (some (toString summary.Failed ++ " operation(s) failed"))) ∧
    (¬ (0 < summary.Failed ∧ c = false) →
      PrintBulkJSON print results summary c = GoOutcome.ok none) := by
  unfold PrintBulkJSON
  rw [hbuild]
  simp only [hprint]
  constructor
  · intro h
    rw [if_pos h]
  · intro h
    rw [if_neg h]

/-- Closed instance of C7: one failed result, once with continueOnError
off (fatal) and once with it on (nil). -/
theorem printBulkJSON_fatal_iff_witness :
    PrintBulkJSON (fun _ => none)
      [{ operation := wOpFail, success := false, error := some "boom" }]
      (GetSummary [{ operation := wOpFail, success := false, error := some "boom" }]) false =
      GoOutcome.ok (some (toString
        (GetSummary [{ operation := wOpFail, success := false, error := some "boom" }]).Failed ++
        " operation(s) failed")) ∧
    PrintBulkJSON (fun _ => none)
      [{ operation := wOpFail, success := false, error := some "boom" }]
      (GetSummary [{ operation := wOpFail, success := false, error := some "boom" }]) true =
      GoOutcome.ok none :=
  ⟨(printBulkJSON_fatal_iff (fun _ => none)
      [{ operation := wOpFail, success := false, error := some "boom" }]
      (GetSummary [{ operation := wOpFail, success := false, error := some "boom" }]) false
      [{ serverIdentifier := "b", status := "error", errMsg := some "boom" }] rfl rfl).1 (by decide),
   (printBulkJSON_fatal_iff (fun _ => none)
      [{ operation := wOpFail, success := false, error := some "boom" }]
      (GetSummary [{ operation := wOpFail, success := false, error := some "boom" }]) true
      [{ serverIdentifier := "b", status := "error", errMsg := some "boom" }] rfl rfl).2 (by decide)⟩

/-- C8: NewExecutor with a non-positive maxConcurrency builds the very
same executor as NewExecutor with 10 (so Execute behaves identically on
it), while a positive maxConcurrency, and the two policy flags always,
are preserved unchanged. -/
theorem newExecutor_coercion (m : Int) (c f : Bool) :
    (m ≤ 0 → NewExecutor m c f = NewExecutor 10 c f) ∧
    (0 < m → (NewExecutor m c f).maxConcurrency = m) ∧
    (NewExecutor m c f).continueOnError = c ∧
    (NewExecutor m c f).failFast = f ∧
    (m ≤ 0 → ∀ ops l s t, ExecStep (NewExecutor m c f) ops l s t ↔
      ExecStep (NewExecutor 10 c f) ops l s t) := by
  have hcoerce : m ≤ 0 → NewExecutor m c f = NewExecutor 10 c f := by
    intro h
    unfold NewExecutor
    rw [if_pos h, if_neg (by norm_num : ¬ (10:Int) ≤ 0)]
  refine ⟨hcoerce, ?_, ?_, ?_, ?_⟩
  · intro h
    unfold NewExecutor
    rw [if_neg (by omega : ¬ m ≤ 0)]
  · unfold NewExecutor
    split <;> rfl
  · unfold NewExecutor
    split <;> rfl
  · intro h ops l s t
    rw [hcoerce h]

/-- Closed instance of C8: maxConcurrency -3 is coerced to the default
executor, maxConcurrency 5 is kept. -/
theorem newExecutor_coercion_witness :
    NewExecutor (-3) false false = NewExecutor 10 false false ∧
    (NewExecutor 5 true false).maxConcurrency = 5 :=
  ⟨(newExecutor_coercion (-3) false false).1 (by decide),
   (newExecutor_coercion 5 true false).2.1 (by decide)⟩

/-- C9 (refuted as stated): among the syntactic accesses to the shared
hasError flag in Execute there is a read performed without the mutex —
the fail-fast check in the main goroutine — so it is false that every
read and write of the flag happens under the shared lock; the writes,
however, all do hold it. -/
theorem hasError_read_unlocked :
    hasErrorAccesses.all (fun a => a.underLock) = false ∧
    (∃ a ∈ hasErrorAccesses, a.op = FlagOp.readOp ∧ a.underLock = false) ∧
    (∀ a ∈ hasErrorAccesses, a.op = FlagOp.writeOp → a.underLock = true) := by
  decide

/-- A failed result carrying a nil error makes the output loop of
PrintBulkJSON dereference nil, wherever it sits in the list. -/
theorem buildOutputData_panics {results : List Result}
    (h : ∃ r ∈ results, r.success = false ∧ r.error = none) :
    buildOutputData results = GoOutcome.nilPanic := by
  induction results with
  | nil =>
    obtain ⟨r, hr, _⟩ := h
    exact absurd hr (List.not_mem_nil r)
  | cons a rest ih =>
    obtain ⟨r, hr, hs, he⟩ := h
    rcases List.mem_cons.mp hr with h1 | h1
    · subst h1
      have hma : mkResultData r = GoOutcome.nilPanic := by
        unfold mkResultData
        rw [if_neg (by simp [hs]), he]
      unfold buildOutputData
      rw [hma]
    · have hrest := ih ⟨r, h1, hs, he⟩
      unfold buildOutputData
      rw [hrest]
      cases mkResultData a <;> rfl

/-- C10: PrintBulkJSON has the unstated precondition that every failed
result carries a non-nil error: on any result list containing a failed
result with a nil error it dereferences nil and panics instead of
printing, and on the results of any terminal Execute run this cannot
happen — every failed slot carries a non-nil error. -/
theorem printBulkJSON_nil_error_panics :
    (∀ (print : Response → Option String) (results : List Result) (summary : Summary) (c : Bool),
      (∃ r ∈ results, r.success = false ∧ r.error = none) →
      PrintBulkJSON print results summary c = GoOutcome.nilPanic) ∧
    (∀ (e : Executor) (ops : List Operation) (s : ExecState),
      Reachable e ops s → Terminal s →
      ∀ j, j < ops.length → ∃ r, s.results j = some r ∧ (r.success = false → r.error ≠ none)) := by
  constructor
  · intro print results summary c h
    unfold PrintBulkJSON
    rw [buildOutputData_panics h]
  · intro e ops s hr ht j hj
    obtain ⟨r, h1, _, h3, _⟩ := terminal_results_slot hr ht j hj
    refine ⟨r, h1, fun hs hn => ?_⟩
    rw [h3.mpr hn] at hs
    exact Bool.noConfusion hs

/-- Closed instance of C10: a single failed result with a nil error makes
PrintBulkJSON panic. -/
theorem printBulkJSON_nil_error_panics_witness :
    PrintBulkJSON (fun _ => none)
      [{ operation := wOp, success := false, error := none }]
      (GetSummary [{ operation := wOp, success := false, error := none }]) true =
      GoOutcome.nilPanic :=
  printBulkJSON_nil_error_panics.1 (fun _ => none)
    [{ operation := wOp, success := false, error := none }]
    (GetSummary [{ operation := wOp, success := false, error := none }]) true
    ⟨{ operation := wOp, success := false, error := none }, by simp, rfl, rfl⟩

end Bulk
